import Mathlib

/-!
Verification of the SOADML teaching-notebook optimizer core: objective
oracles (least squares, logistic), closed-form minimizers, the SGD / SVRG /
SAGA iterators, and the single-split ADMM updates for the Lasso.

Scalars are modelled exactly: `ℚ` where the Python code only does field
arithmetic, `ℝ` where the exponential function appears (logistic loss).
Vectors in `ℝ^p` are `Fin p → K`; data matrices are `Matrix (Fin n) (Fin p) K`.
-/

open scoped Matrix
open Finset

/-! ## Objective oracles (notebook `SOADML_2_SVRG_and_SAGA`) -/

/-- Least-squares objective `f(theta) = 0.5 * ||y - X theta||^2`. -/
def f_ls {n p : ℕ} (X : Matrix (Fin n) (Fin p) ℚ) (y : Fin n → ℚ)
    (theta : Fin p → ℚ) : ℚ :=
  (1 / 2) * ∑ i, (y i - X.mulVec theta i) ^ 2

/-- Least-squares full gradient `-X^T (y - X theta)`. -/
def full_grad_f {n p : ℕ} (X : Matrix (Fin n) (Fin p) ℚ) (y : Fin n → ℚ)
    (theta : Fin p → ℚ) : Fin p → ℚ :=
  -(Xᵀ.mulVec (y - X.mulVec theta))

/-- Least-squares per-datum gradient `-X[i] * (y[i] - X[i].dot(theta))`. -/
def grad_f {n p : ℕ} (X : Matrix (Fin n) (Fin p) ℚ) (y : Fin n → ℚ)
    (theta : Fin p → ℚ) (i : Fin n) : Fin p → ℚ :=
  fun j => -X i j * (y i - X i ⬝ᵥ theta)

/-- Logistic objective `np.mean(np.log(1 + np.exp(-y * X.dot(theta))))`. -/
noncomputable def f_log {n p : ℕ} (X : Matrix (Fin n) (Fin p) ℝ)
    (y : Fin n → ℝ) (theta : Fin p → ℝ) : ℝ :=
  (1 / (n : ℝ)) * ∑ i, Real.log (1 + Real.exp (-(y i) * (X i ⬝ᵥ theta)))

/-- Logistic full gradient `(1/n) * (-y / (1 + np.exp(y * X.dot(theta)))).dot(X)`. -/
noncomputable def full_grad_f_log {n p : ℕ} (X : Matrix (Fin n) (Fin p) ℝ)
    (y : Fin n → ℝ) (theta : Fin p → ℝ) : Fin p → ℝ :=
  fun j => (1 / (n : ℝ)) * ∑ i, (-(y i) / (1 + Real.exp (y i * (X i ⬝ᵥ theta)))) * X i j

/-- Logistic per-datum gradient
`(1/n) * (-y[i] / (1 + np.exp(y[i] * X[i].dot(theta)))) * X[i]`. -/
noncomputable def grad_f_log {n p : ℕ} (X : Matrix (Fin n) (Fin p) ℝ)
    (y : Fin n → ℝ) (theta : Fin p → ℝ) (i : Fin n) : Fin p → ℝ :=
  fun j => (1 / (n : ℝ)) * (-(y i) / (1 + Real.exp (y i * (X i ⬝ᵥ theta))) * X i j)

/-! ## SAGA iterator (notebook `SOADML_2_SVRG_and_SAGA`, logistic section)

The loop is parameterized by the objective/gradient oracle (`fobj`, `gradf`)
it consumes and by an explicit pseudorandom source `g : S → Fin n × S`
standing for `np.random.randint(0, n)` together with the generator state it
advances. -/

/-- Mutable state of the SAGA loop: the iterate `theta`, the `n × p` gradient
table `gradients`, the running mean `mean_gradient`, the two recorded
histories, and the pseudorandom-generator state. -/
structure SagaState (n p : ℕ) (S : Type) where
  theta : Fin p → ℚ
  gradients : Fin n → Fin p → ℚ
  mean_gradient : Fin p → ℚ
  theta_history : List (Fin p → ℚ)
  f_history : List ℚ
  rng : S

/-- One SAGA iteration at time `t`.  The three gradient-step lines are left
`# TODO` in the notebook; they are modelled from the spec:
`g_i = ∇f_i(θ)`, `G = g_i - ĝ_i + ḡ`, `θ ← θ - γ G`.  The initialization,
recording (`if t % (2n) == 0`) and storage lines
(`mean_gradient += (1/n)(gradient_i - gradients[i]); gradients[i] = gradient_i`)
are present in the source and transcribed as they stand. -/
def sagaStep {n p : ℕ} {S : Type} (fobj : (Fin p → ℚ) → ℚ)
    (gradf : (Fin p → ℚ) → Fin n → (Fin p → ℚ)) (step_size : ℚ)
    (g : S → Fin n × S) (t : ℕ) (s : SagaState n p S) : SagaState n p S :=
  let d := g s.rng
  let i := d.1
  let gradient_i := gradf s.theta i
  let G := gradient_i - s.gradients i + s.mean_gradient
  let theta := s.theta - step_size • G
  { theta := theta
    gradients := Function.update s.gradients i gradient_i
    mean_gradient := s.mean_gradient + (1 / (n : ℚ)) • (gradient_i - s.gradients i)
    theta_history :=
      if t % (2 * n) = 0 then s.theta_history ++ [theta] else s.theta_history
    f_history :=
      if t % (2 * n) = 0 then s.f_history ++ [fobj theta] else s.f_history
    rng := d.2 }

/-- SAGA initial state: `gradients = np.zeros((n,p))`, `mean_gradient =
np.zeros(p)`, empty histories. -/
def sagaInit {n p : ℕ} {S : Type} (theta0 : Fin p → ℚ) (s0 : S) :
    SagaState n p S :=
  { theta := theta0
    gradients := fun _ => 0
    mean_gradient := 0
    theta_history := []
    f_history := []
    rng := s0 }

/-- The SAGA loop after `T` iterations (`for t in range(T)`). -/
def sagaRun {n p : ℕ} {S : Type} (fobj : (Fin p → ℚ) → ℚ)
    (gradf : (Fin p → ℚ) → Fin n → (Fin p → ℚ)) (step_size : ℚ)
    (g : S → Fin n × S) (theta0 : Fin p → ℚ) (s0 : S) :
    ℕ → SagaState n p S
  | 0 => sagaInit theta0 s0
  | t + 1 => sagaStep fobj gradf step_size g t
      (sagaRun fobj gradf step_size g theta0 s0 t)

/-! ## SGD iterator (notebook `SOADML_2_SVRG_and_SAGA`, least-squares section)

This loop is complete in the source (no `# TODO`): per iteration it draws
`i = np.random.randint(0, n)`, does `theta = theta - step_size * grad_f(theta, i)`,
updates the Polyak-Rupert average `theta_averaged = (t*theta_averaged + theta)/(t+1)`,
and records the four histories when `t % (2*n) == 0`. -/

/-- Mutable state of the SGD loop. -/
structure SgdState (n p : ℕ) (S : Type) where
  theta : Fin p → ℚ
  theta_averaged : Fin p → ℚ
  theta_history : List (Fin p → ℚ)
  f_history : List ℚ
  theta_averaged_history : List (Fin p → ℚ)
  f_averaged_history : List ℚ
  rng : S

/-- One SGD iteration at time `t`, transcribed from the source. -/
def sgdStep {n p : ℕ} {S : Type} (fobj : (Fin p → ℚ) → ℚ)
    (gradf : (Fin p → ℚ) → Fin n → (Fin p → ℚ)) (step_size : ℚ)
    (g : S → Fin n × S) (t : ℕ) (s : SgdState n p S) : SgdState n p S :=
  let d := g s.rng
  let i := d.1
  let theta := s.theta - step_size • gradf s.theta i
  let theta_averaged := (1 / ((t : ℚ) + 1)) • ((t : ℚ) • s.theta_averaged + theta)
  { theta := theta
    theta_averaged := theta_averaged
    theta_history :=
      if t % (2 * n) = 0 then s.theta_history ++ [theta] else s.theta_history
    f_history :=
      if t % (2 * n) = 0 then s.f_history ++ [fobj theta] else s.f_history
    theta_averaged_history :=
      if t % (2 * n) = 0 then s.theta_averaged_history ++ [theta_averaged]
      else s.theta_averaged_history
    f_averaged_history :=
      if t % (2 * n) = 0 then s.f_averaged_history ++ [fobj theta_averaged]
      else s.f_averaged_history
    rng := d.2 }

/-- SGD initial state: random initial `theta` and `theta_averaged` are taken
as parameters, histories start empty. -/
def sgdInit {n p : ℕ} {S : Type} (theta0 theta_av0 : Fin p → ℚ) (s0 : S) :
    SgdState n p S :=
  { theta := theta0
    theta_averaged := theta_av0
    theta_history := []
    f_history := []
    theta_averaged_history := []
    f_averaged_history := []
    rng := s0 }

/-- The SGD loop after `T` iterations (`for t in range(T)`). -/
def sgdRun {n p : ℕ} {S : Type} (fobj : (Fin p → ℚ) → ℚ)
    (gradf : (Fin p → ℚ) → Fin n → (Fin p → ℚ)) (step_size : ℚ)
    (g : S → Fin n × S) (theta0 theta_av0 : Fin p → ℚ) (s0 : S) :
    ℕ → SgdState n p S
  | 0 => sgdInit theta0 theta_av0 s0
  | t + 1 => sgdStep fobj gradf step_size g t
      (sgdRun fobj gradf step_size g theta0 theta_av0 s0 t)

/-! ## Pseudorandom source

`np.random.randint(0, n)` is modelled as an explicit generator
`g : S → Fin n × S` on a generator-state type `S`; a seed is an initial
state `s : S`.  `drawStream g s` is the sequence of indices the source
emits. -/

/-- Generator state after `t` draws. -/
def rngIter {n : ℕ} {S : Type} (g : S → Fin n × S) (s0 : S) : ℕ → S
  | 0 => s0
  | t + 1 => (g (rngIter g s0 t)).2

/-- The `t`-th index drawn from the source started at seed `s0`. -/
def drawStream {n : ℕ} {S : Type} (g : S → Fin n × S) (s0 : S) (t : ℕ) :
    Fin n :=
  (g (rngIter g s0 t)).1

/-- Two seeded sources emit the same index sequence. -/
def StreamEq {n : ℕ} {S₁ S₂ : Type} (g₁ : S₁ → Fin n × S₁)
    (g₂ : S₂ → Fin n × S₂) (s₁ : S₁) (s₂ : S₂) : Prop :=
  ∀ t, drawStream g₁ s₁ t = drawStream g₂ s₂ t

/-- Everything the SGD loop produces except the generator state. -/
def sgdObs {n p : ℕ} {S : Type} (s : SgdState n p S) :
    (Fin p → ℚ) × (Fin p → ℚ) × List (Fin p → ℚ) × List ℚ ×
      List (Fin p → ℚ) × List ℚ :=
  (s.theta, s.theta_averaged, s.theta_history, s.f_history,
    s.theta_averaged_history, s.f_averaged_history)

/-- Everything the SAGA loop produces except the generator state. -/
def sagaObs {n p : ℕ} {S : Type} (s : SagaState n p S) :
    (Fin p → ℚ) × (Fin n → Fin p → ℚ) × (Fin p → ℚ) ×
      List (Fin p → ℚ) × List ℚ :=
  (s.theta, s.gradients, s.mean_gradient, s.theta_history, s.f_history)

/-! ## Closed-form minimizers -/

/-- `np.sign` on rationals. -/
def sgn (x : ℚ) : ℚ :=
  if x < 0 then -1 else if x = 0 then 0 else 1

/-- Modelled from the spec: the soft-threshold (proximal ℓ¹) operator
`prox_c(v) = sign(v) * max(|v| - c, 0)`; the notebook's `lasso_ADMM` body that
would apply it is left `# TODO` in the source. -/
def softThr (c v : ℚ) : ℚ :=
  sgn v * max (|v| - c) 0

/-- Modelled from the spec: the ADMM `rho`-update
`rho <- prox_{lam/tau}(theta + u)` applied elementwise. -/
def rho_update {p : ℕ} (tau lam : ℚ) (theta u : Fin p → ℚ) : Fin p → ℚ :=
  fun j => softThr (lam / tau) (theta j + u j)

/-- The notebook markdown's closed form for the `rho`-update,
`rho = (theta + u - tau/lam)_+ - (tau/lam - theta - u)_+`, as written. -/
def rho_update_closed {p : ℕ} (tau lam : ℚ) (theta u : Fin p → ℚ) :
    Fin p → ℚ :=
  fun j => max (theta j + u j - tau / lam) 0 - max (tau / lam - (theta j + u j)) 0

/-- Computable matrix inverse over `ℚ` via the adjugate,
`A⁻¹ = det(A)⁻¹ • adj(A)`; agrees with Mathlib's `A⁻¹`. -/
def matInv {m : ℕ} (A : Matrix (Fin m) (Fin m) ℚ) : Matrix (Fin m) (Fin m) ℚ :=
  (A.det)⁻¹ • A.adjugate

/-- Closed-form least-squares minimizer
`theta_star = np.linalg.inv(X.T.dot(X)).dot(X.T).dot(y)`. -/
def theta_star {n p : ℕ} (X : Matrix (Fin n) (Fin p) ℚ) (y : Fin n → ℚ) :
    Fin p → ℚ :=
  (matInv (Xᵀ * X)).mulVec (Xᵀ.mulVec y)

/-- The same computation with `np.linalg.inv`'s failure mode made explicit:
`np.linalg.inv` raises `LinAlgError("Singular matrix")` exactly when its
argument is not invertible, modelled as an `Except` value. -/
def theta_star_checked {n p : ℕ} (X : Matrix (Fin n) (Fin p) ℚ)
    (y : Fin n → ℚ) : Except String (Fin p → ℚ) :=
  if (Xᵀ * X).det = 0 then Except.error "SingularMatrix"
  else Except.ok (theta_star X y)

/-! ## Single-split ADMM for the Lasso (notebook `SOADML_3_ADMM`)

The augmented `theta`-subproblem objective, its normal-equations matrix and
right-hand side, and the iteration.  The `lasso_ADMM` Python body is `# TODO`
in the source; the update formulas come from the notebook's markdown and, where
that markdown disagrees with the argmin it claims to solve, from the spec. -/

/-- The `theta`-subproblem objective of single-split ADMM for the Lasso:
`(1/(2n)) ||X theta - y||^2 + (tau/2) ||theta - rho + u||^2`. -/
def aug_lasso_obj {n p : ℕ} (X : Matrix (Fin n) (Fin p) ℚ) (y : Fin n → ℚ)
    (tau : ℚ) (rho u theta : Fin p → ℚ) : ℚ :=
  (1 / (2 * (n : ℚ))) * ((X.mulVec theta - y) ⬝ᵥ (X.mulVec theta - y)) +
    (tau / 2) * ((theta - rho + u) ⬝ᵥ (theta - rho + u))

/-- The ridge-like system matrix `X^T X / n + tau I` of the `theta`-update. -/
def admmM {n p : ℕ} (X : Matrix (Fin n) (Fin p) ℚ) (tau : ℚ) :
    Matrix (Fin p) (Fin p) ℚ :=
  (1 / (n : ℚ)) • (Xᵀ * X) + tau • (1 : Matrix (Fin p) (Fin p) ℚ)

/-- The right-hand side `X^T y / n + tau (rho - u)` of the `theta`-update. -/
def admmB {n p : ℕ} (X : Matrix (Fin n) (Fin p) ℚ) (y : Fin n → ℚ)
    (tau : ℚ) (rho u : Fin p → ℚ) : Fin p → ℚ :=
  (1 / (n : ℚ)) • Xᵀ.mulVec y + tau • (rho - u)

/-- Modelled from the spec: one single-split ADMM iteration for the Lasso
(`lasso_ADMM`'s loop body is `# TODO` in the source): ridge-like
`theta`-solve, soft-threshold `rho`-update, dual ascent `u`-update. -/
def admmStep {n p : ℕ} (X : Matrix (Fin n) (Fin p) ℚ) (y : Fin n → ℚ)
    (lam tau : ℚ) (s : (Fin p → ℚ) × (Fin p → ℚ) × (Fin p → ℚ)) :
    (Fin p → ℚ) × (Fin p → ℚ) × (Fin p → ℚ) :=
  let theta := (matInv (admmM X tau)).mulVec (admmB X y tau s.2.1 s.2.2)
  let rho := rho_update tau lam theta s.2.2
  let u := s.2.2 + theta - rho
  (theta, rho, u)

/-- The ADMM loop after `t` iterations, from the source's initialization
`rho = np.zeros(n_features); u = np.zeros(n_features)`. -/
def admmRun {n p : ℕ} (X : Matrix (Fin n) (Fin p) ℚ) (y : Fin n → ℚ)
    (lam tau : ℚ) : ℕ → (Fin p → ℚ) × (Fin p → ℚ) × (Fin p → ℚ)
  | 0 => (0, 0, 0)
  | t + 1 => admmStep X y lam tau (admmRun X y lam tau t)

/-! ## Gradient descent (first notebook) -/

/-- Modelled from the spec: the GD iterate `theta <- theta - gamma * grad_f(theta)`
(the loop body `theta = # TODO` is blank in the source notebook). -/
def gdIter {p : ℕ} (fullg : (Fin p → ℚ) → (Fin p → ℚ)) (step_size : ℚ)
    (theta0 : Fin p → ℚ) : ℕ → Fin p → ℚ
  | 0 => theta0
  | t + 1 =>
    let theta := gdIter fullg step_size theta0 t
    theta - step_size • fullg theta

/-- The GD trajectory as recorded by the source loop: every iterate together
with its objective value. -/
def gdRun {p : ℕ} (fobj : (Fin p → ℚ) → ℚ)
    (fullg : (Fin p → ℚ) → (Fin p → ℚ)) (step_size : ℚ)
    (theta0 : Fin p → ℚ) (T : ℕ) : List ((Fin p → ℚ) × ℚ) :=
  (List.range T).map fun t =>
    (gdIter fullg step_size theta0 (t + 1),
      fobj (gdIter fullg step_size theta0 (t + 1)))

/-! ## SVRG iterator (notebook `SOADML_2_SVRG_and_SAGA`)

The logistic SVRG loop is complete in the source; it is transcribed with the
oracle (`fobj`, `fullg`, `gradf`) as a parameter. -/

/-- The inner SVRG recursion for one epoch with snapshot `theta_hat`:
`theta <- theta - gamma * (grad_f(theta, i_k) - grad_f(theta_hat, i_k) + full_gradient_hat)`
where `full_gradient_hat` is evaluated at the snapshot.  `svrgIter k` is the
content of `theta_history[k-1]` in the source. -/
def svrgIter {n p : ℕ} (fullg : (Fin p → ℚ) → (Fin p → ℚ))
    (gradf : (Fin p → ℚ) → Fin n → (Fin p → ℚ)) (step_size : ℚ)
    (theta_hat : Fin p → ℚ) (idx : ℕ → Fin n) : ℕ → Fin p → ℚ
  | 0 => theta_hat
  | k + 1 =>
    let theta := svrgIter fullg gradf step_size theta_hat idx k
    theta - step_size •
      (gradf theta (idx k) - gradf theta_hat (idx k) + fullg theta_hat)

/-- One SVRG outer epoch: the new snapshot
`theta_hat = np.mean(theta_history, axis=0)`, the mean of the `k_max` inner
iterates. -/
def svrgEpoch {n p : ℕ} (fullg : (Fin p → ℚ) → (Fin p → ℚ))
    (gradf : (Fin p → ℚ) → Fin n → (Fin p → ℚ)) (step_size : ℚ)
    (theta_hat : Fin p → ℚ) (idx : ℕ → Fin n) (k_max : ℕ) : Fin p → ℚ :=
  (1 / (k_max : ℚ)) •
    ∑ k ∈ Finset.range k_max, svrgIter fullg gradf step_size theta_hat idx (k + 1)

/-- Mean of a list of vectors (`np.mean(theta_history, axis=0)`). -/
def vecMean {p : ℕ} (l : List (Fin p → ℚ)) : Fin p → ℚ :=
  (1 / (l.length : ℚ)) • l.sum

/-- The inner SVRG loop threading the pseudorandom source: returns the list
of inner iterates (`theta_history`) and the final generator state. -/
def svrgInner {n p : ℕ} {S : Type} (gradf : (Fin p → ℚ) → Fin n → (Fin p → ℚ))
    (step_size : ℚ) (ghat theta_hat : Fin p → ℚ) (g : S → Fin n × S) :
    ℕ → (Fin p → ℚ) → S → List (Fin p → ℚ) × S
  | 0, _, s => ([], s)
  | k + 1, theta, s =>
    let d := g s
    let theta2 := theta - step_size •
      (gradf theta d.1 - gradf theta_hat d.1 + ghat)
    let r := svrgInner gradf step_size ghat theta_hat g k theta2 d.2
    (theta2 :: r.1, r.2)

/-- State of the outer SVRG loop. -/
structure SvrgState (n p : ℕ) (S : Type) where
  theta_hat : Fin p → ℚ
  f_history : List ℚ
  rng : S

/-- One outer SVRG epoch of the source loop: compute `full_gradient_hat` once
at the snapshot, run `k_max` inner steps, average the inner iterates, record
the objective value. -/
def svrgOuterStep {n p : ℕ} {S : Type} (fobj : (Fin p → ℚ) → ℚ)
    (fullg : (Fin p → ℚ) → (Fin p → ℚ))
    (gradf : (Fin p → ℚ) → Fin n → (Fin p → ℚ)) (step_size : ℚ)
    (k_max : ℕ) (g : S → Fin n × S) (s : SvrgState n p S) : SvrgState n p S :=
  let ghat := fullg s.theta_hat
  let r := svrgInner gradf step_size ghat s.theta_hat g k_max s.theta_hat s.rng
  let theta_hat2 := vecMean r.1
  { theta_hat := theta_hat2
    f_history := s.f_history ++ [fobj theta_hat2]
    rng := r.2 }

/-- The outer SVRG loop after `T` epochs. -/
def svrgRun {n p : ℕ} {S : Type} (fobj : (Fin p → ℚ) → ℚ)
    (fullg : (Fin p → ℚ) → (Fin p → ℚ))
    (gradf : (Fin p → ℚ) → Fin n → (Fin p → ℚ)) (step_size : ℚ)
    (k_max : ℕ) (g : S → Fin n × S) (theta_hat0 : Fin p → ℚ) (s0 : S) :
    ℕ → SvrgState n p S
  | 0 => ⟨theta_hat0, [], s0⟩
  | t + 1 => svrgOuterStep fobj fullg gradf step_size k_max g
      (svrgRun fobj fullg gradf step_size k_max g theta_hat0 s0 t)

/-- Everything the SVRG loop produces except the generator state. -/
def svrgObs {n p : ℕ} {S : Type} (s : SvrgState n p S) :
    (Fin p → ℚ) × List ℚ :=
  (s.theta_hat, s.f_history)

/-! ## Numerical form of the logistic gradient -/

/-- The intermediate value `np.exp(y[i] * X[i].dot(theta))` that the source's
logistic `grad_f` computes before dividing: the exponential is applied to the
raw margin, with no numerically-stable sigmoid reformulation. -/
noncomputable def logistic_exp_intermediate {n p : ℕ}
    (X : Matrix (Fin n) (Fin p) ℝ) (y : Fin n → ℝ) (theta : Fin p → ℝ)
    (i : Fin n) : ℝ :=
  Real.exp (y i * (X i ⬝ᵥ theta))

/-- The IEEE float64 overflow threshold `2^1024`: a positive double is
representable only below this bound. -/
noncomputable def float64_sup : ℝ :=
  2 ^ (1024 : ℕ)

/-- C5: both oracles decompose the full gradient as the sum of the per-datum
gradients: the least-squares oracle is unnormalized, the logistic oracle
carries the `1/n` factor in both the full and the per-datum gradients. -/
theorem full_grad_is_sum_of_per_datum_grads
    {n p : ℕ} (X : Matrix (Fin n) (Fin p) ℚ) (y : Fin n → ℚ)
    (theta : Fin p → ℚ)
    {n' p' : ℕ} (X' : Matrix (Fin n') (Fin p') ℝ) (y' : Fin n' → ℝ)
    (theta' : Fin p' → ℝ) :
    full_grad_f X y theta = ∑ i, grad_f X y theta i ∧
    full_grad_f_log X' y' theta' = ∑ i, grad_f_log X' y' theta' i := by
  constructor
  · funext j
    simp only [full_grad_f, grad_f, Matrix.mulVec, Matrix.transpose_apply,
      Pi.neg_apply, Matrix.dotProduct, Pi.sub_apply, sum_apply]
    rw [← Finset.sum_neg_distrib]
    exact Finset.sum_congr rfl fun i _ => by ring
  · funext j
    simp only [full_grad_f_log, grad_f_log, sum_apply]
    rw [Finset.mul_sum]

/-- The incremental update of `mean_gradient` together with the table write
preserves the mean-of-table invariant, whatever value `gradient_i` takes. -/
theorem sagaStep_preserves_mean {n p : ℕ} {S : Type}
    (fobj : (Fin p → ℚ) → ℚ) (gradf : (Fin p → ℚ) → Fin n → (Fin p → ℚ))
    (step_size : ℚ) (g : S → Fin n × S) (t : ℕ) (s : SagaState n p S)
    (h : s.mean_gradient = (1 / (n : ℚ)) • ∑ j, s.gradients j) :
    (sagaStep fobj gradf step_size g t s).mean_gradient
      = (1 / (n : ℚ)) • ∑ j, (sagaStep fobj gradf step_size g t s).gradients j := by
  set i := (g s.rng).1 with hi
  have hsum : (∑ j, Function.update s.gradients i (gradf s.theta i) j)
      = gradf s.theta i + (∑ j, s.gradients j - s.gradients i) := by
    rw [Finset.sum_update_of_mem (Finset.mem_univ i),
      Finset.sum_sdiff_eq_sub (Finset.subset_univ {i}), Finset.sum_singleton]
  simp only [sagaStep, h, hsum, smul_add, smul_sub]
  abel

/-- C1: SAGA initializes the gradient table and the running mean to zero, and
after every iteration the running mean equals exactly `(1/n)` times the sum of
the table rows; the dynamics consist only of the incremental update
`mean_gradient += (1/n)(gradient_i - gradients[i]); gradients[i] = gradient_i`
embedded in `sagaStep`, never a recomputation from the whole table. -/
theorem saga_mean_gradient_invariant {n p : ℕ} {S : Type}
    (fobj : (Fin p → ℚ) → ℚ) (gradf : (Fin p → ℚ) → Fin n → (Fin p → ℚ))
    (step_size : ℚ) (g : S → Fin n × S) (theta0 : Fin p → ℚ) (s0 : S) :
    ((sagaRun fobj gradf step_size g theta0 s0 0).gradients = fun _ => 0) ∧
    (sagaRun fobj gradf step_size g theta0 s0 0).mean_gradient = 0 ∧
    ∀ T, (sagaRun fobj gradf step_size g theta0 s0 T).mean_gradient
      = (1 / (n : ℚ)) • ∑ j, (sagaRun fobj gradf step_size g theta0 s0 T).gradients j := by
  refine ⟨rfl, rfl, fun T => ?_⟩
  induction T with
  | zero => simp [sagaRun, sagaInit]
  | succ t ih => exact sagaStep_preserves_mean fobj gradf step_size g t _ ih

/-- Adding one more iteration bumps the ceiling count `(t + (m-1))/m` exactly
when the new iteration index `t` is a recording step (`t % m = 0`). -/
theorem ceil_div_record_succ (m t : ℕ) (hm : 0 < m) :
    (t + 1 + (m - 1)) / m = (t + (m - 1)) / m + (if t % m = 0 then 1 else 0) := by
  have h1 : t + 1 + (m - 1) = t + m := by omega
  rw [h1, Nat.add_div_right t hm]
  by_cases h : t % m = 0
  · obtain ⟨q, rfl⟩ := Nat.dvd_of_mod_eq_zero h
    simp only [h, if_pos]
    rw [Nat.mul_add_div hm, Nat.mul_div_cancel_left _ hm,
      Nat.div_eq_of_lt (by omega), add_zero]
  · simp only [h, if_neg, not_false_iff, add_zero]
    have hd := Nat.div_add_mod t m
    have hr2 : t % m < m := Nat.mod_lt t hm
    have h4 : (t % m - 1) / m = 0 := Nat.div_eq_of_lt (by omega)
    conv_rhs => rw [← hd]
    rw [add_assoc, Nat.mul_add_div hm]
    have h3 : t % m + (m - 1) = (t % m - 1) + m := by omega
    rw [h3, Nat.add_div_right _ hm, h4, Nat.zero_add]

/-- A counter that starts at zero and increments exactly at the recording
steps `t % m = 0` equals the ceiling `(T + (m-1))/m` after `T` iterations. -/
theorem length_of_record_schedule (m : ℕ) (hm : 0 < m) (L : ℕ → ℕ)
    (h0 : L 0 = 0)
    (hstep : ∀ t, L (t + 1) = L t + (if t % m = 0 then 1 else 0)) :
    ∀ T, L T = (T + (m - 1)) / m := by
  intro T
  induction T with
  | zero => rw [h0, Nat.zero_add, Nat.div_eq_of_lt (by omega)]
  | succ t ih => rw [hstep, ih, ceil_div_record_succ m t hm]

/-- C10: in both the SGD and the SAGA loop, a `(theta, f(theta))` pair is
appended to the history only at iterations with `t % (2n) = 0`, so after `T`
iterations the recorded trajectories hold `⌈T/(2n)⌉ = (T + 2n - 1)/(2n)`
entries, not one entry per iteration. -/
theorem sgd_saga_record_schedule {n p p' : ℕ} {S S' : Type}
    (fobj : (Fin p → ℚ) → ℚ) (gradf : (Fin p → ℚ) → Fin n → (Fin p → ℚ))
    (step_size : ℚ) (g : S → Fin n × S) (theta0 theta_av0 : Fin p → ℚ)
    (s0 : S)
    (fobj' : (Fin p' → ℚ) → ℚ) (gradf' : (Fin p' → ℚ) → Fin n → (Fin p' → ℚ))
    (step_size' : ℚ) (g' : S' → Fin n × S') (theta0' : Fin p' → ℚ) (s0' : S')
    (hn : 0 < n) (T : ℕ) :
    ((sgdRun fobj gradf step_size g theta0 theta_av0 s0 T).theta_history.length
        = (T + (2 * n - 1)) / (2 * n) ∧
      (sgdRun fobj gradf step_size g theta0 theta_av0 s0 T).f_history.length
        = (T + (2 * n - 1)) / (2 * n)) ∧
    (sagaRun fobj' gradf' step_size' g' theta0' s0' T).theta_history.length
        = (T + (2 * n - 1)) / (2 * n) ∧
    (sagaRun fobj' gradf' step_size' g' theta0' s0' T).f_history.length
        = (T + (2 * n - 1)) / (2 * n) := by
  have hm : 0 < 2 * n := by omega
  refine ⟨⟨?_, ?_⟩, ?_, ?_⟩
  · exact length_of_record_schedule (2 * n) hm
      (fun T => (sgdRun fobj gradf step_size g theta0 theta_av0 s0 T).theta_history.length)
      rfl
      (fun t => by
        simp only [sgdRun, sgdStep]
        split_ifs <;> simp) T
  · exact length_of_record_schedule (2 * n) hm
      (fun T => (sgdRun fobj gradf step_size g theta0 theta_av0 s0 T).f_history.length)
      rfl
      (fun t => by
        simp only [sgdRun, sgdStep]
        split_ifs <;> simp) T
  · exact length_of_record_schedule (2 * n) hm
      (fun T => (sagaRun fobj' gradf' step_size' g' theta0' s0' T).theta_history.length)
      rfl
      (fun t => by
        simp only [sagaRun, sagaStep]
        split_ifs <;> simp) T
  · exact length_of_record_schedule (2 * n) hm
      (fun T => (sagaRun fobj' gradf' step_size' g' theta0' s0' T).f_history.length)
      rfl
      (fun t => by
        simp only [sagaRun, sagaStep]
        split_ifs <;> simp) T

/-- Witness for C10 at a concrete instance: `n = 1`, `T = 5`, trivial oracle;
the recorded history has `⌈5/2⌉ = 3` entries. -/
theorem sgd_saga_record_schedule_witness :
    0 < 1 ∧
    (((sgdRun (S := Unit) (fun _ => (0 : ℚ)) (fun _ _ => (0 : Fin 1 → ℚ)) 1
          (fun _ => ((0 : Fin 1), ())) (fun _ => 0) (fun _ => 0) () 5).theta_history.length
        = (5 + (2 * 1 - 1)) / (2 * 1) ∧
      (sgdRun (S := Unit) (fun _ => (0 : ℚ)) (fun _ _ => (0 : Fin 1 → ℚ)) 1
          (fun _ => ((0 : Fin 1), ())) (fun _ => 0) (fun _ => 0) () 5).f_history.length
        = (5 + (2 * 1 - 1)) / (2 * 1)) ∧
    (sagaRun (S := Unit) (fun _ => (0 : ℚ)) (fun _ _ => (0 : Fin 1 → ℚ)) 1
          (fun _ => ((0 : Fin 1), ())) (fun _ => 0) () 5).theta_history.length
        = (5 + (2 * 1 - 1)) / (2 * 1) ∧
    (sagaRun (S := Unit) (fun _ => (0 : ℚ)) (fun _ _ => (0 : Fin 1 → ℚ)) 1
          (fun _ => ((0 : Fin 1), ())) (fun _ => 0) () 5).f_history.length
        = (5 + (2 * 1 - 1)) / (2 * 1)) :=
  ⟨by decide,
    sgd_saga_record_schedule (fun _ => (0 : ℚ)) (fun _ _ => (0 : Fin 1 → ℚ)) 1
      (fun _ => ((0 : Fin 1), ())) (fun _ => 0) (fun _ => 0) ()
      (fun _ => (0 : ℚ)) (fun _ _ => (0 : Fin 1 → ℚ)) 1
      (fun _ => ((0 : Fin 1), ())) (fun _ => 0) ()
      (by decide) 5⟩

/-- Drawing `k + t` indices is drawing `k`, then `t` more from the reached
generator state. -/
theorem rngIter_add {n : ℕ} {S : Type} (g : S → Fin n × S) (s : S) (k t : ℕ) :
    rngIter g s (k + t) = rngIter g (rngIter g s k) t := by
  induction t with
  | zero => rfl
  | succ t ih =>
    show (g (rngIter g s (k + t))).2 = _
    rw [ih]
    rfl

/-- The stream after skipping `k` draws is the original stream shifted. -/
theorem drawStream_add {n : ℕ} {S : Type} (g : S → Fin n × S) (s : S)
    (k t : ℕ) : drawStream g (rngIter g s k) t = drawStream g s (k + t) := by
  unfold drawStream
  rw [rngIter_add]

/-- Stream equality survives advancing both sources one draw. -/
theorem streamEq_tail {n : ℕ} {S₁ S₂ : Type} {g₁ : S₁ → Fin n × S₁}
    {g₂ : S₂ → Fin n × S₂} {s₁ : S₁} {s₂ : S₂} (h : StreamEq g₁ g₂ s₁ s₂) :
    StreamEq g₁ g₂ (g₁ s₁).2 (g₂ s₂).2 := by
  intro t
  rw [show (g₁ s₁).2 = rngIter g₁ s₁ 1 from rfl, drawStream_add,
    show (g₂ s₂).2 = rngIter g₂ s₂ 1 from rfl, drawStream_add]
  exact h (1 + t)

/-- Stream equality survives advancing both sources `k` draws. -/
theorem streamEq_iterate {n : ℕ} {S₁ S₂ : Type} {g₁ : S₁ → Fin n × S₁}
    {g₂ : S₂ → Fin n × S₂} {s₁ : S₁} {s₂ : S₂} (h : StreamEq g₁ g₂ s₁ s₂)
    (k : ℕ) : StreamEq g₁ g₂ (rngIter g₁ s₁ k) (rngIter g₂ s₂ k) := by
  intro t
  rw [drawStream_add, drawStream_add]
  exact h (k + t)

/-- The generator state carried by the SGD loop is the seed advanced `T`
draws. -/
theorem sgdRun_rng {n p : ℕ} {S : Type} (fobj : (Fin p → ℚ) → ℚ)
    (gradf : (Fin p → ℚ) → Fin n → (Fin p → ℚ)) (step_size : ℚ)
    (g : S → Fin n × S) (theta0 theta_av0 : Fin p → ℚ) (s0 : S) (T : ℕ) :
    (sgdRun fobj gradf step_size g theta0 theta_av0 s0 T).rng
      = rngIter g s0 T := by
  induction T with
  | zero => rfl
  | succ t ih =>
    show (g (sgdRun fobj gradf step_size g theta0 theta_av0 s0 t).rng).2 = _
    rw [ih]
    rfl

/-- The generator state carried by the SAGA loop is the seed advanced `T`
draws. -/
theorem sagaRun_rng {n p : ℕ} {S : Type} (fobj : (Fin p → ℚ) → ℚ)
    (gradf : (Fin p → ℚ) → Fin n → (Fin p → ℚ)) (step_size : ℚ)
    (g : S → Fin n × S) (theta0 : Fin p → ℚ) (s0 : S) (T : ℕ) :
    (sagaRun fobj gradf step_size g theta0 s0 T).rng = rngIter g s0 T := by
  induction T with
  | zero => rfl
  | succ t ih =>
    show (g (sagaRun fobj gradf step_size g theta0 s0 t).rng).2 = _
    rw [ih]
    rfl

/-- SGD trajectories depend on the random source only through the index
stream it emits. -/
theorem sgdRun_obs_streamEq {n p : ℕ} {S₁ S₂ : Type}
    (fobj : (Fin p → ℚ) → ℚ) (gradf : (Fin p → ℚ) → Fin n → (Fin p → ℚ))
    (step_size : ℚ) (g₁ : S₁ → Fin n × S₁) (g₂ : S₂ → Fin n × S₂)
    (theta0 theta_av0 : Fin p → ℚ) (s₁ : S₁) (s₂ : S₂)
    (h : StreamEq g₁ g₂ s₁ s₂) (T : ℕ) :
    sgdObs (sgdRun fobj gradf step_size g₁ theta0 theta_av0 s₁ T)
      = sgdObs (sgdRun fobj gradf step_size g₂ theta0 theta_av0 s₂ T) := by
  induction T with
  | zero => rfl
  | succ t ih =>
    have hd : (g₁ (sgdRun fobj gradf step_size g₁ theta0 theta_av0 s₁ t).rng).1
        = (g₂ (sgdRun fobj gradf step_size g₂ theta0 theta_av0 s₂ t).rng).1 := by
      rw [sgdRun_rng, sgdRun_rng]
      exact h t
    simp only [sgdObs, Prod.mk.injEq] at ih
    obtain ⟨h1, h2, h3, h4, h5, h6⟩ := ih
    simp only [sgdRun, sgdStep, sgdObs, Prod.mk.injEq]
    rw [h1, h2, h3, h4, h5, h6, hd]
    exact ⟨rfl, rfl, rfl, rfl, rfl, rfl⟩

/-- SAGA trajectories depend on the random source only through the index
stream it emits. -/
theorem sagaRun_obs_streamEq {n p : ℕ} {S₁ S₂ : Type}
    (fobj : (Fin p → ℚ) → ℚ) (gradf : (Fin p → ℚ) → Fin n → (Fin p → ℚ))
    (step_size : ℚ) (g₁ : S₁ → Fin n × S₁) (g₂ : S₂ → Fin n × S₂)
    (theta0 : Fin p → ℚ) (s₁ : S₁) (s₂ : S₂)
    (h : StreamEq g₁ g₂ s₁ s₂) (T : ℕ) :
    sagaObs (sagaRun fobj gradf step_size g₁ theta0 s₁ T)
      = sagaObs (sagaRun fobj gradf step_size g₂ theta0 s₂ T) := by
  induction T with
  | zero => rfl
  | succ t ih =>
    have hd : (g₁ (sagaRun fobj gradf step_size g₁ theta0 s₁ t).rng).1
        = (g₂ (sagaRun fobj gradf step_size g₂ theta0 s₂ t).rng).1 := by
      rw [sagaRun_rng, sagaRun_rng]
      exact h t
    simp only [sagaObs, Prod.mk.injEq] at ih
    obtain ⟨h1, h2, h3, h4, h5⟩ := ih
    simp only [sagaRun, sagaStep, sagaObs, Prod.mk.injEq]
    rw [h1, h2, h3, h4, h5, hd]
    exact ⟨rfl, rfl, rfl, rfl, rfl⟩

/-- The inner SVRG loop consumes exactly `k` draws from the source. -/
theorem svrgInner_rng {n p : ℕ} {S : Type}
    (gradf : (Fin p → ℚ) → Fin n → (Fin p → ℚ)) (step_size : ℚ)
    (ghat theta_hat : Fin p → ℚ) (g : S → Fin n × S) :
    ∀ k (theta : Fin p → ℚ) (s : S),
      (svrgInner gradf step_size ghat theta_hat g k theta s).2
        = rngIter g s k := by
  intro k
  induction k with
  | zero => intro theta s; rfl
  | succ k ih =>
    intro theta s
    show (svrgInner gradf step_size ghat theta_hat g k _ (g s).2).2 = _
    rw [ih, show (g s).2 = rngIter g s 1 from rfl, ← rngIter_add,
      Nat.add_comm 1 k]

/-- The inner iterate list depends on the source only through its index
stream. -/
theorem svrgInner_fst_streamEq {n p : ℕ} {S₁ S₂ : Type}
    (gradf : (Fin p → ℚ) → Fin n → (Fin p → ℚ)) (step_size : ℚ)
    (ghat theta_hat : Fin p → ℚ) (g₁ : S₁ → Fin n × S₁)
    (g₂ : S₂ → Fin n × S₂) :
    ∀ k (s₁ : S₁) (s₂ : S₂), StreamEq g₁ g₂ s₁ s₂ → ∀ theta : Fin p → ℚ,
      (svrgInner gradf step_size ghat theta_hat g₁ k theta s₁).1
        = (svrgInner gradf step_size ghat theta_hat g₂ k theta s₂).1 := by
  intro k
  induction k with
  | zero => intro s₁ s₂ h theta; rfl
  | succ k ih =>
    intro s₁ s₂ h theta
    have hd : (g₁ s₁).1 = (g₂ s₂).1 := h 0
    simp only [svrgInner]
    rw [hd]
    exact congrArg (List.cons _) (ih (g₁ s₁).2 (g₂ s₂).2 (streamEq_tail h) _)

/-- The generator state carried by the outer SVRG loop is the seed advanced
`T * k_max` draws. -/
theorem svrgRun_rng {n p : ℕ} {S : Type} (fobj : (Fin p → ℚ) → ℚ)
    (fullg : (Fin p → ℚ) → (Fin p → ℚ))
    (gradf : (Fin p → ℚ) → Fin n → (Fin p → ℚ)) (step_size : ℚ)
    (k_max : ℕ) (g : S → Fin n × S) (theta_hat0 : Fin p → ℚ) (s0 : S)
    (T : ℕ) :
    (svrgRun fobj fullg gradf step_size k_max g theta_hat0 s0 T).rng
      = rngIter g s0 (T * k_max) := by
  induction T with
  | zero => rw [Nat.zero_mul]; rfl
  | succ t ih =>
    show (svrgInner _ _ _ _ g k_max _
      (svrgRun fobj fullg gradf step_size k_max g theta_hat0 s0 t).rng).2 = _
    rw [svrgInner_rng, ih, ← rngIter_add, Nat.succ_mul]

/-- SVRG trajectories depend on the random source only through the index
stream it emits. -/
theorem svrgRun_obs_streamEq {n p : ℕ} {S₁ S₂ : Type}
    (fobj : (Fin p → ℚ) → ℚ) (fullg : (Fin p → ℚ) → (Fin p → ℚ))
    (gradf : (Fin p → ℚ) → Fin n → (Fin p → ℚ)) (step_size : ℚ)
    (k_max : ℕ) (g₁ : S₁ → Fin n × S₁) (g₂ : S₂ → Fin n × S₂)
    (theta_hat0 : Fin p → ℚ) (s₁ : S₁) (s₂ : S₂)
    (h : StreamEq g₁ g₂ s₁ s₂) (T : ℕ) :
    svrgObs (svrgRun fobj fullg gradf step_size k_max g₁ theta_hat0 s₁ T)
      = svrgObs (svrgRun fobj fullg gradf step_size k_max g₂ theta_hat0 s₂ T) := by
  induction T with
  | zero => rfl
  | succ t ih =>
    have hstream : StreamEq g₁ g₂
        (svrgRun fobj fullg gradf step_size k_max g₁ theta_hat0 s₁ t).rng
        (svrgRun fobj fullg gradf step_size k_max g₂ theta_hat0 s₂ t).rng := by
      rw [svrgRun_rng, svrgRun_rng]
      exact streamEq_iterate h (t * k_max)
    simp only [svrgObs, Prod.mk.injEq] at ih
    obtain ⟨h1, h2⟩ := ih
    simp only [svrgRun, svrgOuterStep, svrgObs, Prod.mk.injEq]
    rw [h1, h2]
    have hinner :
        (svrgInner gradf step_size
          (fullg (svrgRun fobj fullg gradf step_size k_max g₂ theta_hat0 s₂ t).theta_hat)
          (svrgRun fobj fullg gradf step_size k_max g₂ theta_hat0 s₂ t).theta_hat
          g₁ k_max
          (svrgRun fobj fullg gradf step_size k_max g₂ theta_hat0 s₂ t).theta_hat
          (svrgRun fobj fullg gradf step_size k_max g₁ theta_hat0 s₁ t).rng).1
        = (svrgInner gradf step_size
          (fullg (svrgRun fobj fullg gradf step_size k_max g₂ theta_hat0 s₂ t).theta_hat)
          (svrgRun fobj fullg gradf step_size k_max g₂ theta_hat0 s₂ t).theta_hat
          g₂ k_max
          (svrgRun fobj fullg gradf step_size k_max g₂ theta_hat0 s₂ t).theta_hat
          (svrgRun fobj fullg gradf step_size k_max g₂ theta_hat0 s₂ t).rng).1 :=
      svrgInner_fst_streamEq gradf step_size _ _ g₁ g₂ k_max _ _ hstream _
    rw [hinner]
    exact ⟨rfl, rfl⟩

/-- C9: every iterator is deterministic given its inputs and random source:
two runs of SGD, SAGA or SVRG whose seeded sources emit the same index
stream (in particular, two runs from the same seed) produce identical
trajectories, and GD and ADMM, which draw no randomness, always reproduce
the same trajectory from the same dataset and initial point. -/
theorem iterators_deterministic_given_seed {n p p' p2 p3 n4 p4 : ℕ}
    {S₁ S₂ : Type}
    (fobj : (Fin p → ℚ) → ℚ) (gradf : (Fin p → ℚ) → Fin n → (Fin p → ℚ))
    (step_size : ℚ) (theta0 theta_av0 : Fin p → ℚ)
    (fobj' : (Fin p' → ℚ) → ℚ) (gradf' : (Fin p' → ℚ) → Fin n → (Fin p' → ℚ))
    (step_size' : ℚ) (theta0' : Fin p' → ℚ)
    (fobj2 : (Fin p2 → ℚ) → ℚ) (fullg2 : (Fin p2 → ℚ) → (Fin p2 → ℚ))
    (gradf2 : (Fin p2 → ℚ) → Fin n → (Fin p2 → ℚ)) (step_size2 : ℚ)
    (k_max : ℕ) (theta_hat0 : Fin p2 → ℚ)
    (fobj3 : (Fin p3 → ℚ) → ℚ) (fullg3 : (Fin p3 → ℚ) → (Fin p3 → ℚ))
    (step_size3 : ℚ) (theta03 : Fin p3 → ℚ)
    (X : Matrix (Fin n4) (Fin p4) ℚ) (y : Fin n4 → ℚ) (lam tau : ℚ)
    (g₁ : S₁ → Fin n × S₁) (g₂ : S₂ → Fin n × S₂) (s₁ : S₁) (s₂ : S₂)
    (h : StreamEq g₁ g₂ s₁ s₂) :
    (∀ T, sgdObs (sgdRun fobj gradf step_size g₁ theta0 theta_av0 s₁ T)
        = sgdObs (sgdRun fobj gradf step_size g₂ theta0 theta_av0 s₂ T)) ∧
    (∀ T, sagaObs (sagaRun fobj' gradf' step_size' g₁ theta0' s₁ T)
        = sagaObs (sagaRun fobj' gradf' step_size' g₂ theta0' s₂ T)) ∧
    (∀ T, svrgObs (svrgRun fobj2 fullg2 gradf2 step_size2 k_max g₁ theta_hat0 s₁ T)
        = svrgObs (svrgRun fobj2 fullg2 gradf2 step_size2 k_max g₂ theta_hat0 s₂ T)) ∧
    (∀ T, gdRun fobj3 fullg3 step_size3 theta03 T
        = gdRun fobj3 fullg3 step_size3 theta03 T) ∧
    (∀ T, admmRun X y lam tau T = admmRun X y lam tau T) :=
  ⟨fun T => sgdRun_obs_streamEq fobj gradf step_size g₁ g₂ theta0 theta_av0
      s₁ s₂ h T,
    fun T => sagaRun_obs_streamEq fobj' gradf' step_size' g₁ g₂ theta0'
      s₁ s₂ h T,
    fun T => svrgRun_obs_streamEq fobj2 fullg2 gradf2 step_size2 k_max g₁ g₂
      theta_hat0 s₁ s₂ h T,
    fun _ => rfl, fun _ => rfl⟩

/-- Witness for C9: two syntactically different generator states on different
state spaces that emit the same (constant) index stream drive identical
trajectories. -/
theorem iterators_deterministic_given_seed_witness :
    (∀ T, sgdObs (sgdRun (n := 1) (p := 1) (S := Bool) (fun _ => (0 : ℚ))
          (fun theta _ => theta) 1 (fun b => ((0 : Fin 1), !b)) (fun _ => 1)
          (fun _ => 0) true T)
        = sgdObs (sgdRun (n := 1) (p := 1) (S := Unit) (fun _ => (0 : ℚ))
          (fun theta _ => theta) 1 (fun _ => ((0 : Fin 1), ())) (fun _ => 1)
          (fun _ => 0) () T)) ∧
    (∀ T, sagaObs (sagaRun (n := 1) (p := 1) (S := Bool) (fun _ => (0 : ℚ))
          (fun theta _ => theta) 1 (fun b => ((0 : Fin 1), !b)) (fun _ => 1)
          true T)
        = sagaObs (sagaRun (n := 1) (p := 1) (S := Unit) (fun _ => (0 : ℚ))
          (fun theta _ => theta) 1 (fun _ => ((0 : Fin 1), ())) (fun _ => 1)
          () T)) ∧
    (∀ T, svrgObs (svrgRun (n := 1) (p := 1) (S := Bool) (fun _ => (0 : ℚ)) (fun theta => theta)
          (fun theta _ => theta) 1 2 (fun b => ((0 : Fin 1), !b)) (fun _ => 1)
          true T)
        = svrgObs (svrgRun (n := 1) (p := 1) (S := Unit) (fun _ => (0 : ℚ)) (fun theta => theta)
          (fun theta _ => theta) 1 2 (fun _ => ((0 : Fin 1), ())) (fun _ => 1)
          () T)) ∧
    (∀ T, gdRun (p := 1) (fun _ => (0 : ℚ)) (fun theta => theta) 1
          (fun _ => (1 : ℚ)) T
        = gdRun (p := 1) (fun _ => (0 : ℚ)) (fun theta => theta) 1
          (fun _ => (1 : ℚ)) T) ∧
    (∀ T, admmRun (Matrix.of ![![(1 : ℚ)]]) ![1] 1 1 T
        = admmRun (Matrix.of ![![(1 : ℚ)]]) ![1] 1 1 T) :=
  iterators_deterministic_given_seed (fun _ => (0 : ℚ)) (fun theta _ => theta)
    1 (fun _ => 1) (fun _ => 0) (fun _ => (0 : ℚ)) (fun theta _ => theta) 1
    (fun _ => 1) (fun _ => (0 : ℚ)) (fun theta => theta) (fun theta _ => theta)
    1 2 (fun _ => 1) (fun _ => (0 : ℚ)) (fun theta => theta) 1 (fun _ => 1)
    (Matrix.of ![![(1 : ℚ)]]) ![1] 1 1 (fun b => ((0 : Fin 1), !b))
    (fun _ => ((0 : Fin 1), ())) true () (fun _ => rfl)

/-- C4: in every SVRG outer epoch the full-gradient oracle matters only
through its value at the snapshot (so it is evaluated once, before the inner
loop, and never recomputed inside the inner loop); each inner step follows
`theta <- theta - gamma (grad_i(theta) - grad_i(theta_hat) + full_grad(theta_hat))`
with the stored snapshot gradient; and the new snapshot is the mean of the
`k_max` inner iterates. -/
theorem svrg_epoch_structure {n p : ℕ}
    (fullg₁ fullg₂ : (Fin p → ℚ) → (Fin p → ℚ))
    (gradf : (Fin p → ℚ) → Fin n → (Fin p → ℚ)) (step_size : ℚ)
    (theta_hat : Fin p → ℚ) (idx : ℕ → Fin n) (k_max : ℕ)
    (h : fullg₁ theta_hat = fullg₂ theta_hat) :
    (∀ k, svrgIter fullg₁ gradf step_size theta_hat idx k
        = svrgIter fullg₂ gradf step_size theta_hat idx k) ∧
    svrgEpoch fullg₁ gradf step_size theta_hat idx k_max
      = svrgEpoch fullg₂ gradf step_size theta_hat idx k_max ∧
    (∀ k, svrgIter fullg₁ gradf step_size theta_hat idx (k + 1)
        = svrgIter fullg₁ gradf step_size theta_hat idx k - step_size •
          (gradf (svrgIter fullg₁ gradf step_size theta_hat idx k) (idx k)
            - gradf theta_hat (idx k) + fullg₁ theta_hat)) ∧
    svrgEpoch fullg₁ gradf step_size theta_hat idx k_max
      = (1 / (k_max : ℚ)) • ∑ k ∈ Finset.range k_max,
          svrgIter fullg₁ gradf step_size theta_hat idx (k + 1) := by
  have hiter : ∀ k, svrgIter fullg₁ gradf step_size theta_hat idx k
      = svrgIter fullg₂ gradf step_size theta_hat idx k := by
    intro k
    induction k with
    | zero => rfl
    | succ k ih =>
      show svrgIter fullg₁ gradf step_size theta_hat idx k - _
          = svrgIter fullg₂ gradf step_size theta_hat idx k - _
      rw [ih, h]
  refine ⟨hiter, ?_, fun k => rfl, rfl⟩
  unfold svrgEpoch
  rw [Finset.sum_congr rfl fun k _ => hiter (k + 1)]

/-- Witness for C4: two full-gradient oracles that agree at the snapshot but
differ elsewhere drive the same epoch. -/
theorem svrg_epoch_structure_witness :
    ((fun theta : Fin 1 → ℚ => theta) (fun _ => 0)
        = (fun theta : Fin 1 → ℚ => theta + theta) (fun _ => 0)) ∧
    ((∀ k, svrgIter (n := 1) (p := 1) (fun theta => theta) (fun theta _ => theta) 1
          (fun _ => 0) (fun _ => 0) k
        = svrgIter (n := 1) (p := 1) (fun theta => theta + theta) (fun theta _ => theta) 1
          (fun _ => 0) (fun _ => 0) k) ∧
      svrgEpoch (n := 1) (p := 1) (fun theta => theta) (fun theta _ => theta) 1
          (fun _ => 0) (fun _ => 0) 2
        = svrgEpoch (n := 1) (p := 1) (fun theta => theta + theta) (fun theta _ => theta) 1
          (fun _ => 0) (fun _ => 0) 2 ∧
      (∀ k, svrgIter (n := 1) (p := 1) (fun theta => theta) (fun theta _ => theta) 1
          (fun _ => 0) (fun _ => 0) (k + 1)
        = svrgIter (n := 1) (p := 1) (fun theta => theta) (fun theta _ => theta) 1
            (fun _ => 0) (fun _ => 0) k - (1 : ℚ) •
          ((fun theta _ => theta)
              (svrgIter (n := 1) (p := 1) (fun theta => theta) (fun theta _ => theta) 1
                (fun _ => 0) (fun _ => 0) k) ((fun _ => 0) k)
            - (fun theta _ => theta) (fun _ => (0 : ℚ)) ((fun _ => 0) k)
            + (fun theta => theta) (fun _ => (0 : ℚ)))) ∧
      svrgEpoch (n := 1) (p := 1) (fun theta => theta) (fun theta _ => theta) 1
          (fun _ => 0) (fun _ => 0) 2
        = (1 / (2 : ℚ)) • ∑ k ∈ Finset.range 2,
            svrgIter (n := 1) (p := 1) (fun theta => theta) (fun theta _ => theta) 1
              (fun _ => 0) (fun _ => 0) (k + 1)) :=
  ⟨by funext j; simp,
    svrg_epoch_structure (fun theta => theta) (fun theta => theta + theta)
      (fun theta _ => theta) 1 (fun _ => 0) (fun _ => 0) 2
      (by funext j; simp)⟩

/-- Counterexample to C8 as stated: at `X = [[1]]`, `y = [1]`,
`theta = [1000]` the intermediate exponential `e^{y_0 x_0^T theta} = e^1000`
computed by the logistic gradient exceeds the float64 overflow threshold
`2^1024`, so the evaluation does overflow the intermediate for large margins. -/
theorem logistic_exp_intermediate_overflow_cex :
    float64_sup <
      logistic_exp_intermediate (Matrix.of ![![(1 : ℝ)]]) ![1] ![1000] 0 := by
  have h2 : (0 : ℝ) < 2 ^ (1024 : ℕ) := by positivity
  have hm : (![(1 : ℝ)] 0) * (Matrix.of ![![(1 : ℝ)]] 0 ⬝ᵥ ![1000]) = 1000 := by
    simp [Matrix.dotProduct]
  have hlogpow : Real.log ((2 : ℝ) ^ (1024 : ℕ)) = 1024 * Real.log 2 := by
    rw [Real.log_pow]
    norm_num
  have hlt : Real.log ((2 : ℝ) ^ (1024 : ℕ)) < 1000 := by
    rw [hlogpow]
    linarith [Real.log_two_lt_d9]
  calc float64_sup = Real.exp (Real.log ((2 : ℝ) ^ (1024 : ℕ))) :=
        (Real.exp_log h2).symm
    _ < Real.exp 1000 := Real.exp_lt_exp.mpr hlt
    _ = logistic_exp_intermediate (Matrix.of ![![(1 : ℝ)]]) ![1] ![1000] 0 := by
        rw [logistic_exp_intermediate, hm]

/-- C8 (amended): the per-datum logistic gradient computes the raw
exponential `e^{y_i x_i^T theta}` with no stable sigmoid reformulation, and
this intermediate exceeds the float64 overflow threshold `2^1024` whenever
the margin `y_i x_i^T theta` reaches `710`. -/
theorem logistic_exp_intermediate_unbounded {n p : ℕ}
    (X : Matrix (Fin n) (Fin p) ℝ) (y : Fin n → ℝ) (theta : Fin p → ℝ)
    (i : Fin n) (h : (710 : ℝ) ≤ y i * (X i ⬝ᵥ theta)) :
    float64_sup < logistic_exp_intermediate X y theta i := by
  have h2 : (0 : ℝ) < 2 ^ (1024 : ℕ) := by positivity
  have hlogpow : Real.log ((2 : ℝ) ^ (1024 : ℕ)) = 1024 * Real.log 2 := by
    rw [Real.log_pow]
    norm_num
  have hlt : Real.log ((2 : ℝ) ^ (1024 : ℕ)) < y i * (X i ⬝ᵥ theta) := by
    rw [hlogpow]
    linarith [Real.log_two_lt_d9]
  calc float64_sup = Real.exp (Real.log ((2 : ℝ) ^ (1024 : ℕ))) :=
        (Real.exp_log h2).symm
    _ < Real.exp (y i * (X i ⬝ᵥ theta)) := Real.exp_lt_exp.mpr hlt

/-- Witness for the amended C8 at the concrete margin `1000`. -/
theorem logistic_exp_intermediate_unbounded_witness :
    (710 : ℝ) ≤ (![(1 : ℝ)] 0) * (Matrix.of ![![(1 : ℝ)]] 0 ⬝ᵥ ![1000]) ∧
    float64_sup <
      logistic_exp_intermediate (Matrix.of ![![(1 : ℝ)]]) ![1] ![1000] 0 :=
  ⟨by norm_num [Matrix.dotProduct],
    logistic_exp_intermediate_unbounded (Matrix.of ![![(1 : ℝ)]]) ![1] ![1000]
      0 (by norm_num [Matrix.dotProduct])⟩

/-- The notebook markdown's closed form
`(v - tau/lam)_+ - (tau/lam - v)_+` is not a soft threshold at all: it
collapses identically to the constant shift `v - tau/lam`. -/
theorem rho_update_closed_collapses {p : ℕ} (tau lam : ℚ)
    (theta u : Fin p → ℚ) (j : Fin p) :
    rho_update_closed tau lam theta u j = theta j + u j - tau / lam := by
  unfold rho_update_closed
  rcases le_total (tau / lam) (theta j + u j) with h | h
  · rw [max_eq_left (by linarith), max_eq_right (by linarith)]
    ring
  · rw [max_eq_right (by linarith), max_eq_left (by linarith)]
    ring

/-- Counterexample to C3 as stated: at `lam = tau = 1` and `theta + u = 0`
the soft threshold gives `0`, but the claimed decomposition
`(v - lam/tau)_+ - (lam/tau - v)_+` gives `-1`; the two expressions in the
claim are not equal. -/
theorem rho_update_decomposition_cex :
    rho_update (p := 1) 1 1 0 0 0 ≠
      max ((0 : ℚ) + 0 - 1 / 1) 0 - max (1 / 1 - ((0 : ℚ) + 0)) 0 := by
  norm_num [rho_update, softThr, sgn]

/-- The spec's soft threshold decomposes into positive parts as
`sign(v) max(|v| - c, 0) = (v - c)_+ - (-v - c)_+` for `c ≥ 0` (note the
second term is `(-v - c)_+`, not `(c - v)_+`). -/
theorem softThr_pos_part_decomposition (c v : ℚ) (hc : 0 ≤ c) :
    softThr c v = max (v - c) 0 - max (-v - c) 0 := by
  unfold softThr sgn
  rcases lt_trichotomy v 0 with h | h | h
  · rw [if_pos h, abs_of_neg h, max_eq_right (by linarith : v - c ≤ 0)]
    ring
  · subst h
    simp
  · rw [if_neg (by linarith : ¬v < 0), if_neg h.ne', abs_of_pos h,
      max_eq_right (by linarith : -v - c ≤ 0)]
    ring

/-- C3 (amended): the `rho`-update applies the elementwise soft threshold
with threshold `lam/tau` to `theta + u`, i.e.
`rho_j = sign(v_j) max(|v_j| - lam/tau, 0)`, which equals
`(v_j - lam/tau)_+ - (-v_j - lam/tau)_+` (the claim's second positive part
`(lam/tau - v_j)_+` is corrected to `(-v_j - lam/tau)_+`). -/
theorem rho_update_soft_threshold {p : ℕ} (tau lam : ℚ)
    (theta u : Fin p → ℚ) (j : Fin p) (htau : 0 < tau) (hlam : 0 ≤ lam) :
    rho_update tau lam theta u j
      = sgn (theta j + u j) * max (|theta j + u j| - lam / tau) 0 ∧
    rho_update tau lam theta u j
      = max (theta j + u j - lam / tau) 0
        - max (-(theta j + u j) - lam / tau) 0 :=
  ⟨rfl, softThr_pos_part_decomposition (lam / tau) _
    (div_nonneg hlam htau.le)⟩

/-- Witness for the amended C3 at `tau = lam = 1`, `theta + u = [2]`. -/
theorem rho_update_soft_threshold_witness :
    (0 : ℚ) < 1 ∧ (0 : ℚ) ≤ 1 ∧
    (rho_update (p := 1) 1 1 ![2] ![0] 0
        = sgn (![(2 : ℚ)] 0 + ![0] 0) * max (|![(2 : ℚ)] 0 + ![0] 0| - 1 / 1) 0 ∧
      rho_update (p := 1) 1 1 ![2] ![0] 0
        = max (![(2 : ℚ)] 0 + ![0] 0 - 1 / 1) 0
          - max (-(![(2 : ℚ)] 0 + ![0] 0) - 1 / 1) 0) :=
  ⟨by norm_num, by norm_num,
    rho_update_soft_threshold 1 1 ![2] ![0] 0 (by norm_num) (by norm_num)⟩

/-- The adjugate-based inverse agrees with Mathlib's matrix inverse. -/
theorem matInv_eq_inv {m : ℕ} (A : Matrix (Fin m) (Fin m) ℚ) :
    matInv A = A⁻¹ := by
  rw [matInv, Matrix.inv_def, Ring.inverse_eq_inv]

/-- C6: whenever `X^T X` is invertible, the closed-form minimizer
`theta_star = (X^T X)⁻¹ X^T y` zeroes the least-squares full gradient
`-X^T (y - X theta_star)` exactly. -/
theorem full_grad_zero_at_theta_star {n p : ℕ} (X : Matrix (Fin n) (Fin p) ℚ)
    (y : Fin n → ℚ) (h : (Xᵀ * X).det ≠ 0) :
    full_grad_f X y (theta_star X y) = 0 := by
  have hu : IsUnit (Xᵀ * X).det := isUnit_iff_ne_zero.mpr h
  unfold full_grad_f theta_star
  rw [matInv_eq_inv]
  simp only [Matrix.mulVec_sub, Matrix.mulVec_mulVec, ← Matrix.mul_assoc,
    Matrix.mul_nonsing_inv _ hu, Matrix.one_mul, Matrix.one_mulVec, sub_self,
    neg_zero]

/-- Witness for C6 on the concrete instance `X = [[1]]`, `y = [1]`. -/
theorem full_grad_zero_at_theta_star_witness :
    ((Matrix.of ![![(1 : ℚ)]])ᵀ * Matrix.of ![![(1 : ℚ)]]).det ≠ 0 ∧
    full_grad_f (Matrix.of ![![(1 : ℚ)]]) ![1]
      (theta_star (Matrix.of ![![(1 : ℚ)]]) ![1]) = 0 :=
  ⟨by norm_num [Matrix.det_fin_one, Matrix.mul_apply],
    full_grad_zero_at_theta_star (Matrix.of ![![(1 : ℚ)]]) ![1]
      (by norm_num [Matrix.det_fin_one, Matrix.mul_apply])⟩

/-- C7: the closed-form least-squares solve fails with `SingularMatrix`
exactly when `X^T X` is not invertible (no regularized fallback is
substituted), and when `X^T X` is invertible it returns
`theta_star = (X^T X)⁻¹ X^T y`, which solves the normal equations
`(X^T X) theta = X^T y`. -/
theorem theta_star_checked_spec {n p : ℕ} (X : Matrix (Fin n) (Fin p) ℚ)
    (y : Fin n → ℚ) :
    (theta_star_checked X y = Except.error "SingularMatrix"
      ↔ ¬IsUnit (Xᵀ * X)) ∧
    (IsUnit (Xᵀ * X) →
      theta_star_checked X y = Except.ok (theta_star X y) ∧
      (Xᵀ * X).mulVec (theta_star X y) = Xᵀ.mulVec y) := by
  constructor
  · unfold theta_star_checked
    by_cases hdet : (Xᵀ * X).det = 0
    · simp only [if_pos hdet]
      constructor
      · intro _
        rw [Matrix.isUnit_iff_isUnit_det, hdet]
        exact not_isUnit_zero
      · intro _
        trivial
    · simp only [if_neg hdet]
      constructor
      · intro hcontra
        exact absurd hcontra (by simp)
      · intro hnotunit
        exact absurd ((Matrix.isUnit_iff_isUnit_det _).mpr
          (isUnit_iff_ne_zero.mpr hdet)) hnotunit
  · intro hM
    have hu : IsUnit (Xᵀ * X).det := (Matrix.isUnit_iff_isUnit_det _).mp hM
    refine ⟨?_, ?_⟩
    · unfold theta_star_checked
      rw [if_neg hu.ne_zero]
    · unfold theta_star
      rw [matInv_eq_inv, Matrix.mulVec_mulVec, Matrix.mul_nonsing_inv _ hu,
        Matrix.one_mulVec]

/-- Witness for C7: `X = [[0]]` fails with `SingularMatrix`, `X = [[2]]`
succeeds with the closed-form solution. -/
theorem theta_star_checked_spec_witness :
    theta_star_checked (Matrix.of ![![(0 : ℚ)]]) ![1]
      = Except.error "SingularMatrix" ∧
    theta_star_checked (Matrix.of ![![(2 : ℚ)]]) ![4]
      = Except.ok (theta_star (Matrix.of ![![(2 : ℚ)]]) ![4]) := by
  have h0 : ((Matrix.of ![![(0 : ℚ)]])ᵀ * Matrix.of ![![(0 : ℚ)]]).det = 0 := by
    norm_num [Matrix.det_fin_one, Matrix.mul_apply]
  have hnu : ¬IsUnit ((Matrix.of ![![(0 : ℚ)]])ᵀ * Matrix.of ![![(0 : ℚ)]]) := by
    rw [Matrix.isUnit_iff_isUnit_det, h0]
    exact not_isUnit_zero
  have hu2 : IsUnit ((Matrix.of ![![(2 : ℚ)]])ᵀ * Matrix.of ![![(2 : ℚ)]]) := by
    rw [Matrix.isUnit_iff_isUnit_det]
    exact isUnit_iff_ne_zero.mpr (by norm_num [Matrix.det_fin_one, Matrix.mul_apply])
  exact ⟨(theta_star_checked_spec (Matrix.of ![![(0 : ℚ)]]) ![1]).1.mpr hnu,
    ((theta_star_checked_spec (Matrix.of ![![(2 : ℚ)]]) ![4]).2 hu2).1⟩

/-- Moving a transpose across a dot product:
`(X^T w) . d = w . (X d)`. -/
theorem transpose_mulVec_dotProduct {n p : ℕ} (X : Matrix (Fin n) (Fin p) ℚ)
    (w : Fin n → ℚ) (d : Fin p → ℚ) :
    (Xᵀ.mulVec w) ⬝ᵥ d = w ⬝ᵥ (X.mulVec d) := by
  simp only [Matrix.dotProduct, Matrix.mulVec, Matrix.transpose_apply,
    Finset.sum_mul, Finset.mul_sum]
  rw [Finset.sum_comm]
  exact Finset.sum_congr rfl fun i _ =>
    Finset.sum_congr rfl fun j _ => by ring

/-- Square expansion of a dot product of a sum with itself. -/
theorem dot_self_add_expand {p : ℕ} (a b : Fin p → ℚ) :
    (a + b) ⬝ᵥ (a + b) = a ⬝ᵥ a + 2 * (a ⬝ᵥ b) + b ⬝ᵥ b := by
  rw [Matrix.add_dotProduct, Matrix.dotProduct_add, Matrix.dotProduct_add,
    Matrix.dotProduct_comm b a]
  ring

/-- A dot product of a rational vector with itself is nonnegative. -/
theorem dot_sq_nonneg {p : ℕ} (v : Fin p → ℚ) : 0 ≤ v ⬝ᵥ v :=
  Finset.sum_nonneg fun i _ => mul_self_nonneg (v i)

/-- Completing the square for the ADMM `theta`-subproblem: if `thetaHat`
solves the normal equations `(X^T X/n + tau I) thetaHat = X^T y/n + tau (rho - u)`,
the objective at `thetaHat + d` exceeds the objective at `thetaHat` by the
positive-semidefinite quadratic `(1/(2n)) ||X d||^2 + (tau/2) ||d||^2`. -/
theorem aug_lasso_obj_expand {n p : ℕ} (X : Matrix (Fin n) (Fin p) ℚ)
    (y : Fin n → ℚ) (tau : ℚ) (rho u thetaHat d : Fin p → ℚ)
    (hsolve : (admmM X tau).mulVec thetaHat = admmB X y tau rho u) :
    aug_lasso_obj X y tau rho u (thetaHat + d)
      = aug_lasso_obj X y tau rho u thetaHat
        + ((1 / (2 * (n : ℚ))) * ((X.mulVec d) ⬝ᵥ (X.mulVec d))
          + (tau / 2) * (d ⬝ᵥ d)) := by
  have e1 : X.mulVec (thetaHat + d) - y = (X.mulVec thetaHat - y) + X.mulVec d := by
    rw [Matrix.mulVec_add]
    abel
  have e2 : (thetaHat + d) - rho + u = (thetaHat - rho + u) + d := by abel
  have h0 : ((admmM X tau).mulVec thetaHat) ⬝ᵥ d = (admmB X y tau rho u) ⬝ᵥ d := by
    rw [hsolve]
  rw [admmM, admmB, Matrix.add_mulVec, Matrix.smul_mulVec_assoc,
    Matrix.smul_mulVec_assoc, Matrix.one_mulVec, Matrix.add_dotProduct,
    Matrix.smul_dotProduct, Matrix.smul_dotProduct, Matrix.add_dotProduct,
    Matrix.smul_dotProduct, Matrix.smul_dotProduct, ← Matrix.mulVec_mulVec,
    transpose_mulVec_dotProduct, transpose_mulVec_dotProduct,
    Matrix.sub_dotProduct, smul_eq_mul, smul_eq_mul, smul_eq_mul,
    smul_eq_mul] at h0
  have hlin : (1 / (n : ℚ)) * ((X.mulVec thetaHat - y) ⬝ᵥ X.mulVec d)
      + tau * ((thetaHat - rho + u) ⬝ᵥ d) = 0 := by
    rw [Matrix.sub_dotProduct, Matrix.add_dotProduct, Matrix.sub_dotProduct]
    linear_combination h0
  unfold aug_lasso_obj
  rw [e1, e2, dot_self_add_expand, dot_self_add_expand]
  linear_combination hlin

/-- C2 (amended): for every `tau > 0`, `rho`, `u`, the solution `thetaHat` of
`(X^T X/n + tau I) thetaHat = X^T y/n + tau (rho - u)` — i.e. the claim's
formula WITHOUT the spurious leading `1/n` — is an exact minimizer of
`(1/(2n)) ||X theta - y||^2 + (tau/2) ||theta - rho + u||^2`. -/
theorem admm_theta_update_minimizes {n p : ℕ} (X : Matrix (Fin n) (Fin p) ℚ)
    (y : Fin n → ℚ) (tau : ℚ) (rho u thetaHat : Fin p → ℚ) (htau : 0 < tau)
    (hsolve : (admmM X tau).mulVec thetaHat = admmB X y tau rho u) :
    ∀ theta, aug_lasso_obj X y tau rho u thetaHat
      ≤ aug_lasso_obj X y tau rho u theta := by
  intro theta
  have e : thetaHat + (theta - thetaHat) = theta := by abel
  have h := aug_lasso_obj_expand X y tau rho u thetaHat (theta - thetaHat)
    hsolve
  rw [e] at h
  rw [h]
  have h1 : 0 ≤ (1 / (2 * (n : ℚ)))
      * ((X.mulVec (theta - thetaHat)) ⬝ᵥ (X.mulVec (theta - thetaHat))) := by
    have hn : 0 ≤ 1 / (2 * (n : ℚ)) := by positivity
    exact mul_nonneg hn (dot_sq_nonneg _)
  have h2 : 0 ≤ (tau / 2) * ((theta - thetaHat) ⬝ᵥ (theta - thetaHat)) :=
    mul_nonneg (by linarith) (dot_sq_nonneg _)
  linarith

/-- Counterexample to C2 as stated: on `X = [[1],[1]]`, `y = [2,2]`
(`n = 2`), `tau = 1`, `rho = u = 0`, the vector `[1]` solves
`(X^T X/n + tau I) theta = X^T y/n + tau(rho - u)`, so the claim's formula
`(1/n)(X^T X/n + tau I)⁻¹(X^T y/n + tau(rho - u))` returns `(1/2) • [1]`;
but the objective is strictly smaller at `[1]` than at `(1/2) • [1]`, so the
formula with the leading `1/n` does not return the minimizer. -/
theorem admm_theta_update_prefix_cex :
    (admmM (Matrix.of ![![(1 : ℚ)], ![1]]) 1).mulVec ![1]
      = admmB (Matrix.of ![![(1 : ℚ)], ![1]]) ![2, 2] 1 0 0 ∧
    aug_lasso_obj (Matrix.of ![![(1 : ℚ)], ![1]]) ![2, 2] 1 0 0 ![1]
      < aug_lasso_obj (Matrix.of ![![(1 : ℚ)], ![1]]) ![2, 2] 1 0 0
        ((1 / (2 : ℚ)) • ![1]) := by
  constructor
  · funext j
    fin_cases j
    norm_num [admmM, admmB, Matrix.mulVec, Matrix.dotProduct, Matrix.mul_apply,
      Fin.sum_univ_two, Fin.sum_univ_one, Matrix.one_apply,
      Matrix.transpose_apply, Matrix.vecHead, Matrix.vecTail, Matrix.cons_val',
      Matrix.cons_val_zero, Matrix.cons_val_one, Matrix.head_cons,
      Matrix.of_apply]
  · norm_num [aug_lasso_obj, Matrix.mulVec, Matrix.dotProduct,
      Fin.sum_univ_two, Fin.sum_univ_one, Matrix.vecHead, Matrix.vecTail,
      Matrix.cons_val', Matrix.cons_val_zero, Matrix.cons_val_one,
      Matrix.head_cons, Matrix.of_apply]

/-- Witness for the amended C2 on the same concrete instance: `[1]` solves
the system and its objective value is a lower bound, e.g. at `theta = [0]`. -/
theorem admm_theta_update_minimizes_witness :
    (0 : ℚ) < 1 ∧
    (admmM (Matrix.of ![![(1 : ℚ)], ![1]]) 1).mulVec ![1]
      = admmB (Matrix.of ![![(1 : ℚ)], ![1]]) ![2, 2] 1 0 0 ∧
    aug_lasso_obj (Matrix.of ![![(1 : ℚ)], ![1]]) ![2, 2] 1 0 0 ![1]
      ≤ aug_lasso_obj (Matrix.of ![![(1 : ℚ)], ![1]]) ![2, 2] 1 0 0 ![0] := by
  have hsolve : (admmM (Matrix.of ![![(1 : ℚ)], ![1]]) 1).mulVec ![1]
      = admmB (Matrix.of ![![(1 : ℚ)], ![1]]) ![2, 2] 1 0 0 := by
    funext j
    fin_cases j
    norm_num [admmM, admmB, Matrix.mulVec, Matrix.dotProduct, Matrix.mul_apply,
      Fin.sum_univ_two, Fin.sum_univ_one, Matrix.one_apply,
      Matrix.transpose_apply, Matrix.vecHead, Matrix.vecTail, Matrix.cons_val',
      Matrix.cons_val_zero, Matrix.cons_val_one, Matrix.head_cons,
      Matrix.of_apply]
  exact ⟨by norm_num, hsolve,
    admm_theta_update_minimizes (Matrix.of ![![(1 : ℚ)], ![1]]) ![2, 2] 1 0 0
      ![1] (by norm_num) hsolve ![0]⟩
